import Mathlib

/-!
# Verification of the Redis checkpoint saver

Shallow embedding of the Redis-backed checkpoint saver
(`src/examples/streaming-tokens-without-langchain.ipynb`, cell
"Checkpointer implementation"): the `JsonAndBinarySerializer` codec, the
scoped connection providers `_get_sync_connection` / `_get_async_connection`,
and the `RedisSaver` operations `put`/`aput`, `get_tuple`/`aget_tuple`,
`list`/`alist`.  The sync and async variants of each operation are
line-for-line identical apart from `await`, so each pair is embedded as a
single Lean definition.
-/

namespace CkptRedis

/-! ## Python value model

Values handed to the serializer (checkpoints, metadata).  A Python byte is a
number below 256.  The mutual spine (`PyList`, `PyFields`) stands for Python
lists and string-keyed dicts. -/

abbrev PyByte := Fin 256

mutual

inductive PyObj where
  | pystr : String → PyObj
  | pyint : Int → PyObj
  | pybytes : List PyByte → PyObj
  | pylist : PyList → PyObj
  | pydict : PyFields → PyObj
deriving DecidableEq

inductive PyList where
  | lnil : PyList
  | lcons : PyObj → PyList → PyList
deriving DecidableEq

inductive PyFields where
  | fnil : PyFields
  | fcons : String → PyObj → PyFields → PyFields
deriving DecidableEq

end

/-- Lookup of a string key in a Python dict of `PyFields`. -/
def fieldsLookup : PyFields → String → Option PyObj
  | .fnil, _ => none
  | .fcons k v t, name => if k = name then some v else fieldsLookup t name

/-- Whether a value is a Python `bytes`/`bytearray` object (the
`isinstance(obj, (bytes, bytearray))` test in `JsonAndBinarySerializer`). -/
def isBytesObj : PyObj → Bool
  | .pybytes _ => true
  | _ => false

/-! ## Hex codec for byte payloads

`bytes.hex()` and `bytes.fromhex` as used by `JsonAndBinarySerializer`:
two lowercase hex digits per byte, no prefix.  `bytes.fromhex` is a Python
builtin; it is modelled here on strings of plain hex digits (the only inputs
the saver ever hands it). -/

/-- One hex digit, lowercase, as produced by `bytes.hex()`. -/
def hexDigitChar (n : Fin 16) : Char :=
  if n.val < 10 then Char.ofNat (48 + n.val) else Char.ofNat (87 + n.val)

/-- The two lowercase hex digits of one byte. -/
def byteHexChars (b : PyByte) : List Char :=
  [hexDigitChar ⟨b.val / 16, by omega⟩, hexDigitChar ⟨b.val % 16, by omega⟩]

/-- `bytes.hex()`: lowercase hexadecimal text, no prefix. -/
def bytesHex (bs : List PyByte) : String :=
  ⟨bs.flatMap byteHexChars⟩

/-- Numeric value of a hex digit (upper or lower case accepted, as by
`bytes.fromhex`). -/
def hexVal (c : Char) : Option (Fin 16) :=
  if h : 48 ≤ c.toNat ∧ c.toNat ≤ 57 then some ⟨c.toNat - 48, by omega⟩
  else if h2 : 97 ≤ c.toNat ∧ c.toNat ≤ 102 then some ⟨c.toNat - 87, by omega⟩
  else if h3 : 65 ≤ c.toNat ∧ c.toNat ≤ 70 then some ⟨c.toNat - 55, by omega⟩
  else none

/-- Parse pairs of hex digits into bytes; `none` on a stray or bad digit. -/
def hexPairsToBytes : List Char → Option (List PyByte)
  | [] => some []
  | [_] => none
  | c1 :: c2 :: rest =>
    match hexVal c1, hexVal c2 with
    | some hi, some lo =>
      match hexPairsToBytes rest with
      | some bs => some (⟨16 * hi.val + lo.val, by omega⟩ :: bs)
      | none => none
    | _, _ => none

/-- `bytes.fromhex` on a plain hex-digit string. -/
def bytesFromHex (s : String) : Option (List PyByte) :=
  hexPairsToBytes s.data

/-- Membership of a char in the lowercase hex alphabet. -/
def isLowerHexDigit (c : Char) : Bool :=
  ("0123456789abcdef" : String).data.contains c

/-! ## Base serializer

Modelled from the spec: `JsonPlusSerializer` (imported from
`langgraph.serde.jsonplus`, not part of this repository's source) is the
general-purpose serializer the codec layers on.  Per §4.1 of the spec it
"must round-trip arbitrary structured values that a general-purpose
serializer already supports … plus raw byte sequences"; the concrete wire
format is free, so a simple tagged, unary-length-prefixed text encoding is
used here. -/

/-- Unary encoding of a natural number: `n` ones then a zero. -/
def unaryNat (n : Nat) : List Char :=
  List.replicate n '1' ++ ['0']

/-- Sign tag plus unary magnitude, for Python ints. -/
def serInt (n : Int) : List Char :=
  if n < 0 then 'M' :: unaryNat (-n).toNat else 'P' :: unaryNat n.toNat

/-- One byte of a nested bytes payload, in unary. -/
def serByte (b : PyByte) : List Char :=
  unaryNat b.val

mutual

/-- Modelled from the spec: wire form of one structured value. -/
def serObj : PyObj → List Char
  | .pystr s => 'S' :: (unaryNat s.data.length ++ s.data)
  | .pyint n => 'I' :: serInt n
  | .pybytes bs => 'B' :: (unaryNat bs.length ++ bs.flatMap serByte)
  | .pylist l => 'L' :: serPyList l
  | .pydict fs => 'D' :: serPyFields fs

/-- Wire form of a Python list: a marked cons chain. -/
def serPyList : PyList → List Char
  | .lnil => ['0']
  | .lcons v t => '1' :: (serObj v ++ serPyList t)

/-- Wire form of a Python dict: a marked chain of key/value cells. -/
def serPyFields : PyFields → List Char
  | .fnil => ['0']
  | .fcons k v t => '1' :: (unaryNat k.data.length ++ k.data ++ serObj v ++ serPyFields t)

end

/-- Read back a unary number. -/
def parseUnary : List Char → Option (Nat × List Char)
  | '0' :: rest => some (0, rest)
  | '1' :: rest =>
    match parseUnary rest with
    | some (n, r) => some (n + 1, r)
    | none => none
  | _ => none

/-- Take exactly `n` characters, or fail. -/
def takeExact : Nat → List Char → Option (List Char × List Char)
  | 0, r => some ([], r)
  | _ + 1, [] => none
  | n + 1, c :: r =>
    match takeExact n r with
    | some (cs, r2) => some (c :: cs, r2)
    | none => none

/-- Read back a signed integer. -/
def parseIntChars : List Char → Option (Int × List Char)
  | 'P' :: r =>
    match parseUnary r with
    | some (n, r2) => some ((n : Int), r2)
    | none => none
  | 'M' :: r =>
    match parseUnary r with
    | some (n, r2) => some (-(n : Int), r2)
    | none => none
  | _ => none

/-- Read back `n` unary-coded bytes. -/
def parseBytes : Nat → List Char → Option (List PyByte × List Char)
  | 0, r => some ([], r)
  | k + 1, r =>
    match parseUnary r with
    | some (m, r2) =>
      if h : m < 256 then
        match parseBytes k r2 with
        | some (bs, r3) => some (⟨m, h⟩ :: bs, r3)
        | none => none
      else none
    | none => none

mutual

/-- Fuelled parser for one value; fuel bounds the recursion depth
(any fuel of at least the serialized length suffices). -/
def parseObj : Nat → List Char → Option (PyObj × List Char)
  | 0, _ => none
  | fuel + 1, input =>
    match input with
    | 'S' :: r =>
      match parseUnary r with
      | some (n, r2) =>
        match takeExact n r2 with
        | some (cs, r3) => some (.pystr ⟨cs⟩, r3)
        | none => none
      | none => none
    | 'I' :: r =>
      match parseIntChars r with
      | some (n, r2) => some (.pyint n, r2)
      | none => none
    | 'B' :: r =>
      match parseUnary r with
      | some (n, r2) =>
        match parseBytes n r2 with
        | some (bs, r3) => some (.pybytes bs, r3)
        | none => none
      | none => none
    | 'L' :: r =>
      match parsePyList fuel r with
      | some (l, r2) => some (.pylist l, r2)
      | none => none
    | 'D' :: r =>
      match parsePyFields fuel r with
      | some (fs, r2) => some (.pydict fs, r2)
      | none => none
    | _ => none

/-- Fuelled parser for a list chain. -/
def parsePyList : Nat → List Char → Option (PyList × List Char)
  | 0, _ => none
  | fuel + 1, input =>
    match input with
    | '0' :: r => some (.lnil, r)
    | '1' :: r =>
      match parseObj fuel r with
      | some (v, r2) =>
        match parsePyList fuel r2 with
        | some (t, r3) => some (.lcons v t, r3)
        | none => none
      | none => none
    | _ => none

/-- Fuelled parser for a dict chain. -/
def parsePyFields : Nat → List Char → Option (PyFields × List Char)
  | 0, _ => none
  | fuel + 1, input =>
    match input with
    | '0' :: r => some (.fnil, r)
    | '1' :: r =>
      match parseUnary r with
      | some (n, r2) =>
        match takeExact n r2 with
        | some (cs, r3) =>
          match parseObj fuel r3 with
          | some (v, r4) =>
            match parsePyFields fuel r4 with
            | some (t, r5) => some (.fcons ⟨cs⟩ v t, r5)
            | none => none
          | none => none
        | none => none
      | none => none
    | _ => none

end

/-- Modelled from the spec: `JsonPlusSerializer.dumps` for values the general
serializer supports. -/
def baseDumps (v : PyObj) : String :=
  ⟨serObj v⟩

/-- Modelled from the spec: `JsonPlusSerializer.loads`; an unparseable payload
raises (`Deserialization error`). -/
def baseLoads (s : String) : Except String PyObj :=
  match parseObj (s.data.length + 1) s.data with
  | some (v, []) => .ok v
  | _ => .error "Deserialization error"

/-! ## The codec: `JsonAndBinarySerializer`

From the source: `dumps` short-circuits `bytes`/`bytearray` to `obj.hex()`
and otherwise defers to the base serializer; `loads` with `is_binary=True`
decodes via `bytes.fromhex`, otherwise defers to the base serializer.
Failures are logged and re-raised (modelled as the `.error` branch). -/

/-- `JsonAndBinarySerializer.dumps`. -/
def serde_dumps (obj : PyObj) : String :=
  match obj with
  | .pybytes bs => bytesHex bs
  | _ => baseDumps obj

/-- `JsonAndBinarySerializer.loads`; the second argument is `is_binary`
(defaulting to `False` at every call site inside the saver). -/
def serde_loads (s : String) (isBinary : Bool) : Except String PyObj :=
  if isBinary then
    match bytesFromHex s with
    | some bs => .ok (.pybytes bs)
    | none => .error "Deserialization error"
  else baseLoads s

/-! ## Redis store model

The backing store: a finite map from keys to hashes (field-group records),
kept as association lists in insertion order.  `HSET` with a mapping updates
the named fields of an existing hash in place, or appends a fresh record;
`HGETALL` returns the full hash (the Python client returns it as a dict keyed
by `bytes`); `KEYS` returns the keys matching a glob pattern. -/

abbrev RHash := List (String × String)

abbrev RedisStore := List (String × RHash)

/-- Set one field of a hash, preserving field order. -/
def setField : RHash → String → String → RHash
  | [], name, v => [(name, v)]
  | (n, w) :: t, name, v =>
    if n = name then (n, v) :: t else (n, w) :: setField t name v

/-- Apply an `HSET` mapping to a hash, field by field. -/
def hsetFields (h : RHash) (fields : List (String × String)) : RHash :=
  fields.foldl (fun acc p => setField acc p.1 p.2) h

/-- `HSET key mapping` on the whole store. -/
def storeHset : RedisStore → String → List (String × String) → RedisStore
  | [], key, fields => [(key, hsetFields [] fields)]
  | (k, h) :: t, key, fields =>
    if k = key then (k, hsetFields h fields) :: t
    else (k, h) :: storeHset t key fields

/-- The raw hash stored under a key (empty when the key is absent). -/
def storeHgetall : RedisStore → String → RHash
  | [], _ => []
  | (k, h) :: t, key => if k = key then h else storeHgetall t key

/-- Fuelled Redis glob matching, for the `*` wildcard and literal characters
(the only pattern forms the saver builds); every recursive call shortens
pattern or subject, so any fuel above their combined length is enough. -/
def globMatchF : Nat → List Char → List Char → Bool
  | 0, _, _ => false
  | _ + 1, [], s => s.isEmpty
  | f + 1, p :: ps, s =>
    if p = '*' then
      globMatchF f ps s ||
        (match s with
         | [] => false
         | _ :: s2 => globMatchF f (p :: ps) s2)
    else
      match s with
      | [] => false
      | c :: s2 => p = c && globMatchF f ps s2

/-- Redis glob matching. -/
def globMatch (p s : List Char) : Bool :=
  globMatchF (p.length + s.length + 1) p s

/-- `KEYS pattern`: matching keys in store order. -/
def storeKeys (st : RedisStore) (pattern : String) : List String :=
  (st.map (fun e => e.1)).filter (fun k => globMatch pattern.data k.data)

/-! ## Python dict keys

The redis client (constructed without `decode_responses`) returns `HGETALL`
replies as dicts keyed by `bytes`.  Python never equates a `str` with a
`bytes` of the same characters, so dict keys carry their runtime type. -/

inductive PyKey where
  | pstr : String → PyKey
  | pbytes : String → PyKey
deriving DecidableEq

abbrev ReplyDict := List (PyKey × String)

/-- The client-side view of an `HGETALL` reply: field names as `bytes`. -/
def clientHgetall (st : RedisStore) (key : String) : ReplyDict :=
  (storeHgetall st key).map (fun p => (.pbytes p.1, p.2))

/-- Python `d[k]` / `d.get(k)` on a reply dict. -/
def dictGet : ReplyDict → PyKey → Option String
  | [], _ => none
  | (k2, v) :: t, k => if k2 = k then some v else dictGet t k

/-- Python `d.get(k, default)`. -/
def dictGetD (d : ReplyDict) (k : PyKey) (dflt : String) : String :=
  (dictGet d k).getD dflt

/-- Python `k in d`. -/
def dictHasKey (d : ReplyDict) (k : PyKey) : Bool :=
  (dictGet d k).isSome

/-! ## Effectful operations

Saver operations are modelled in a state-and-trace monad over the store:
a run yields the Python result (or the exception that propagated), the store
after the run, and the trace of redis commands and connection events. -/

inductive RedisCmd where
  | ckeys : String → RedisCmd
  | chgetall : String → RedisCmd
  | chset : String → List (String × String) → RedisCmd
deriving DecidableEq

/-- A connection value: either the caller's own `redis.Redis`, or one the
provider built over a pool via `redis.Redis(connection_pool=...)`. -/
inductive Conn where
  | direct : Nat → Conn
  | leased : Nat → Conn
deriving DecidableEq

inductive Event where
  | cmd : RedisCmd → Event
  | connOpened : Conn → Event
  | connClosed : Conn → Event
deriving DecidableEq

instance {ε α : Type} [DecidableEq ε] [DecidableEq α] : DecidableEq (Except ε α) :=
  fun x y =>
  match x, y with
  | .ok a, .ok b =>
    if h : a = b then isTrue (h ▸ rfl) else isFalse fun c => h (Except.ok.inj c)
  | .error e, .error f =>
    if h : e = f then isTrue (h ▸ rfl) else isFalse fun c => h (Except.error.inj c)
  | .ok _, .error _ => isFalse (by intro hc; cases hc)
  | .error _, .ok _ => isFalse (by intro hc; cases hc)

def StoreM (α : Type) : Type :=
  RedisStore → Except String α × RedisStore × List Event

def StoreM.mpure (a : α) : StoreM α := fun st => (.ok a, st, [])

def StoreM.mbind (x : StoreM α) (f : α → StoreM β) : StoreM β := fun st =>
  match x st with
  | (.ok a, st2, tr) =>
    match f a st2 with
    | (r, st3, tr2) => (r, st3, tr ++ tr2)
  | (.error e, st2, tr) => (.error e, st2, tr)

instance : Monad StoreM where
  pure := StoreM.mpure
  bind := StoreM.mbind

/-- A propagating Python exception. -/
def raiseS (msg : String) : StoreM α := fun st => (.error msg, st, [])

/-- Lift a codec result; a codec failure propagates as an exception. -/
def liftE (e : Except String α) : StoreM α := fun st => (e, st, [])

/-- `conn.keys(pattern)`. -/
def cmdKeys (pattern : String) : StoreM (List String) := fun st =>
  (.ok (storeKeys st pattern), st, [.cmd (.ckeys pattern)])

/-- `conn.hgetall(key)`. -/
def cmdHgetall (key : String) : StoreM ReplyDict := fun st =>
  (.ok (clientHgetall st key), st, [.cmd (.chgetall key)])

/-- `conn.hset(key, mapping=fields)`: the single field-group write. -/
def cmdHset (key : String) (fields : List (String × String)) : StoreM Unit := fun st =>
  (.ok (), storeHset st key fields, [.cmd (.chset key fields)])

/-- `d[k]` on a reply dict: missing keys raise `KeyError`. -/
def dictGetOrRaise (d : ReplyDict) (k : PyKey) : StoreM String :=
  match dictGet d k with
  | some v => StoreM.mpure v
  | none => raiseS "KeyError"

/-! ## Connection providers

`_get_sync_connection` (and `_get_async_connection`, identical apart from
`await`/`aclose`): a `redis.Redis` is used in place and never closed; a
`redis.ConnectionPool` leases a fresh connection that the `finally` block
always closes, whether the body returned or raised; anything else —
e.g. `None` — raises `ValueError` before any command is issued. -/

inductive SyncConnSource where
  | direct : Nat → SyncConnSource
  | pool : Nat → SyncConnSource
  | invalid : SyncConnSource
deriving DecidableEq

def _get_sync_connection (source : SyncConnSource) (body : Conn → StoreM α) :
    StoreM α := fun st =>
  match source with
  | .direct id =>
    match body (.direct id) st with
    | (r, st2, tr) => (r, st2, tr)
  | .pool pid =>
    match body (.leased pid) st with
    | (r, st2, tr) => (r, st2, .connOpened (.leased pid) :: tr ++ [.connClosed (.leased pid)])
  | .invalid => (.error "ValueError: Invalid sync connection object.", st, [])

/-! ## Saver data model -/

/-- The `configurable` part of a `RunnableConfig`: the identity descriptor
`{thread_id, thread_ts}` (absent `thread_ts` modelled as `none`). -/
structure Config where
  thread_id : String
  thread_ts : Option String
deriving DecidableEq

/-- `CheckpointTuple`. -/
structure CheckpointTuple where
  config : Config
  checkpoint : PyObj
  metadata : PyObj
  parent_config : Option Config
deriving DecidableEq

/-- Python truthiness of `config["configurable"].get("thread_ts")`:
`None` and the empty string are falsy. -/
def tsTruthy : Option String → Bool
  | none => false
  | some s => !(s = "")

/-- `f"checkpoint:{thread_id}:{ts}"`. -/
def checkpointKey (tid ts : String) : String :=
  "checkpoint:" ++ tid ++ ":" ++ ts

/-- `checkpoint["ts"]`: the version marker of a checkpoint value (a `str`
field of the checkpoint dict, per the `Checkpoint` type). -/
def ckptTs : PyObj → Option String
  | .pydict fs =>
    match fieldsLookup fs "ts" with
    | some (.pystr s) => some s
    | _ => none
  | _ => none

/-- `k.decode().split(":")[-1]`: the suffix of a key after its last colon
(the whole string when it has none). -/
def lastSegment (s : String) : String :=
  ⟨s.data.foldl (fun acc c => if c = ':' then [] else acc ++ [c]) []⟩

/-- Computable lexicographic comparison of character lists, by code point —
Python's `<` on `str` (proved below to agree with the library string
order). -/
def charListLt : List Char → List Char → Bool
  | [], [] => false
  | [], _ :: _ => true
  | _ :: _, [] => false
  | a :: as, b :: bs =>
    if a < b then true
    else if a = b then charListLt as bs
    else false

/-- Python `<` on strings. -/
def strLt (a b : String) : Bool :=
  charListLt a.data b.data

/-- Python `max(x :: xs, key=f)` over strings: keeps the first element whose
key is not exceeded strictly by a later one. -/
def pyMaxByNe (f : String → String) (x : String) (xs : List String) : String :=
  xs.foldl (fun b a => if strLt (f b) (f a) then a else b) x

/-- Stable insertion for descending sort by key. -/
def insertDesc (f : String → String) (x : String) : List String → List String
  | [] => [x]
  | y :: t => if strLt (f y) (f x) then x :: y :: t else y :: insertDesc f x t

/-- Python `sorted(keys, key=f, reverse=True)`: stable, descending. -/
def sortDescBy (f : String → String) (keys : List String) : List String :=
  keys.foldl (fun acc x => insertDesc f x acc) []

namespace RedisSaver

/-- `RedisSaver.put` (and `aput`, identical apart from `await`): build the
key from the thread id and the checkpoint's own `ts`, write the three fields
as one `HSET` mapping inside the connection scope, and return the identity
of the just-written version.  `parent_ts` is the incoming identity's version
when truthy, else the empty string. -/
def put (source : SyncConnSource) (config : Config)
    (checkpoint metadata : PyObj) : StoreM Config :=
  match ckptTs checkpoint with
  | none => raiseS "KeyError: ts"
  | some ts =>
    let thread_id := config.thread_id
    let parent_ts := config.thread_ts
    let key := checkpointKey thread_id ts
    _get_sync_connection source (fun _conn => do
      cmdHset key
        [("checkpoint", serde_dumps checkpoint),
         ("metadata", serde_dumps metadata),
         ("parent_ts", if tsTruthy parent_ts then parent_ts.getD "" else "")]
      StoreM.mpure { thread_id := thread_id, thread_ts := some ts })

/-- `RedisSaver.get_tuple` (and `aget_tuple`, identical apart from `await`):
with a truthy `thread_ts` read that exact key; otherwise enumerate the
thread's keys and take the `max` by the key's last colon-separated segment.
An empty reply returns `None`; otherwise the record is decoded and the
parent identity built from a non-empty stored `parent_ts`. -/
def get_tuple (source : SyncConnSource) (config : Config) :
    StoreM (Option CheckpointTuple) :=
  let thread_id := config.thread_id
  let thread_ts := config.thread_ts
  _get_sync_connection source (fun _conn => do
    let key? ←
      if tsTruthy thread_ts then
        StoreM.mpure (some (checkpointKey thread_id (thread_ts.getD "")))
      else do
        let all_keys ← cmdKeys ("checkpoint:" ++ thread_id ++ ":*")
        match all_keys with
        | [] => StoreM.mpure none
        | k :: ks => StoreM.mpure (some (pyMaxByNe lastSegment k ks))
    match key? with
    | none => StoreM.mpure none
    | some key => do
      let data ← cmdHgetall key
      if data.isEmpty then StoreM.mpure none
      else do
        let cps ← dictGetOrRaise data (.pbytes "checkpoint")
        let mds ← dictGetOrRaise data (.pbytes "metadata")
        let checkpoint ← liftE (serde_loads cps false)
        let metadata ← liftE (serde_loads mds false)
        let parent_ts := dictGetD data (.pbytes "parent_ts") ""
        let parent_config : Option Config :=
          if parent_ts = "" then none
          else some { thread_id := thread_id, thread_ts := some parent_ts }
        StoreM.mpure (some { config := config, checkpoint := checkpoint,
                             metadata := metadata, parent_config := parent_config }))

/-- The per-key body of the `list` loop: read the hash, and yield a tuple
only when the reply is non-empty and has the `checkpoint` and `metadata`
keys — tested with `str` keys (`"checkpoint" in data`), exactly as in the
source, although the reply dict is keyed by `bytes`. -/
def listLoop (thread_id : String) : List String → StoreM (List CheckpointTuple)
  | [] => StoreM.mpure []
  | key :: rest => do
    let data ← cmdHgetall key
    let item? ←
      if !data.isEmpty && dictHasKey data (.pstr "checkpoint")
          && dictHasKey data (.pstr "metadata") then do
        let thread_ts := lastSegment key
        let cps ← dictGetOrRaise data (.pstr "checkpoint")
        let mds ← dictGetOrRaise data (.pstr "metadata")
        let checkpoint ← liftE (serde_loads cps false)
        let metadata ← liftE (serde_loads mds false)
        let pts := dictGetD data (.pstr "parent_ts") ""
        let parent_config : Option Config :=
          if pts = "" then none
          else some { thread_id := thread_id, thread_ts := some pts }
        StoreM.mpure (some { config := { thread_id := thread_id, thread_ts := some thread_ts },
                             checkpoint := checkpoint, metadata := metadata,
                             parent_config := parent_config })
      else StoreM.mpure none
    let restTuples ← listLoop thread_id rest
    StoreM.mpure (match item? with
      | some t => t :: restTuples
      | none => restTuples)

/-- `RedisSaver.list` (and `alist`, identical apart from `await`): enumerate
keys under the thread prefix (`*` when no config is given), filter by
`before` on the key's last segment, sort descending by that segment,
truncate to a truthy `limit`, then read and yield each record.  The unused
`filter` parameter is carried exactly as in the source.  The yielded
sequence is returned eagerly as a list. -/
def list (source : SyncConnSource) (config : Option Config)
    (filter : Option (List (String × String))) (before : Option Config)
    (limit : Option Nat) : StoreM (List CheckpointTuple) :=
  let thread_id :=
    match config with
    | some c => c.thread_id
    | none => "*"
  let pattern := "checkpoint:" ++ thread_id ++ ":*"
  _get_sync_connection source (fun _conn => do
    let keys0 ← cmdKeys pattern
    let keys1 ←
      match before with
      | some b =>
        match b.thread_ts with
        | some bts => StoreM.mpure (keys0.filter (fun k => strLt (lastSegment k) bts))
        | none => raiseS "KeyError: thread_ts"
      | none => StoreM.mpure keys0
    let keys2 := sortDescBy lastSegment keys1
    let keys3 :=
      match limit with
      | some n => if n = 0 then keys2 else keys2.take n
      | none => keys2
    listLoop thread_id keys3)

end RedisSaver

/-! ## Proof-helper definitions -/

/-- Field lookup in a raw hash (proof helper). -/
def lookupRH : RHash → String → Option String
  | [], _ => none
  | (n, w) :: t, name => if n = name then some w else lookupRH t name

/-- The checkpoint record mapping written by `put`. -/
def putMapping (cs ms ps : String) : List (String × String) :=
  [("checkpoint", cs), ("metadata", ms), ("parent_ts", ps)]

/-! ## Concrete stores for the concrete claims -/

/-- A minimal checkpoint value carrying only its version marker. -/
def cexCkpt (ts : String) : PyObj :=
  .pydict (.fcons "ts" (.pystr ts) .fnil)

/-- A minimal metadata value. -/
def cexMeta (s : String) : PyObj :=
  .pydict (.fcons "source" (.pystr s) .fnil)

/-- One `put` to thread `t`: parent version (empty for none) and own version. -/
def cexPutStep (st : RedisStore) (p : String × String) : RedisStore :=
  (RedisSaver.put (.direct 0)
    ⟨"t", if p.1 = "" then none else some p.1⟩
    (cexCkpt p.2) (cexMeta ("m" ++ p.2)) st).2.1

/-- Thread `t` with five fully written, causally chained records,
versions `"1"` … `"5"`. -/
def fiveStore : RedisStore :=
  [("", "1"), ("1", "2"), ("2", "3"), ("3", "4"), ("4", "5")].foldl cexPutStep []

/-- Thread `t` with two fully written records whose version markers contain
colons: `"9:1"` and then `"2:5"` (child of the first). -/
def colonStore : RedisStore :=
  [("", "9:1"), ("9:1", "2:5")].foldl cexPutStep []

/-! ## Theorems

Hex codec lemmas first, then the serializer round trip, store and glob
lemmas, generic run lemmas, and finally one theorem (with witness or
counterexample where applicable) per claim C1..C10. -/

theorem hexVal_hexDigitChar : ∀ n : Fin 16, hexVal (hexDigitChar n) = some n := by
  decide

theorem isLowerHexDigit_hexDigitChar :
    ∀ n : Fin 16, isLowerHexDigit (hexDigitChar n) = true := by
  decide

theorem flatMap_byteHexChars_cons (b : PyByte) (t : List PyByte) :
    (b :: t).flatMap byteHexChars
      = hexDigitChar ⟨b.val / 16, by omega⟩ ::
        hexDigitChar ⟨b.val % 16, by omega⟩ :: t.flatMap byteHexChars := by
  simp [byteHexChars]

theorem hexPairsToBytes_flatMap (bs : List PyByte) :
    hexPairsToBytes (bs.flatMap byteHexChars) = some bs := by
  induction bs with
  | nil => rfl
  | cons b t ih =>
    have hb : (⟨16 * (b.val / 16) + b.val % 16, by omega⟩ : PyByte) = b := by
      apply Fin.ext
      simp only []
      omega
    rw [flatMap_byteHexChars_cons]
    simp only [hexPairsToBytes, hexVal_hexDigitChar, ih, hb]

theorem bytesHex_all_lower_hex (bs : List PyByte) :
    (bytesHex bs).data.all isLowerHexDigit = true := by
  induction bs with
  | nil => rfl
  | cons b t ih =>
    simp only [bytesHex] at ih ⊢
    rw [flatMap_byteHexChars_cons]
    simp only [List.all_cons, isLowerHexDigit_hexDigitChar, Bool.true_and]
    exact ih

theorem bytesFromHex_bytesHex (bs : List PyByte) :
    bytesFromHex (bytesHex bs) = some bs := by
  simpa [bytesFromHex, bytesHex] using hexPairsToBytes_flatMap bs

theorem parseUnary_unaryNat (n : Nat) (rest : List Char) :
    parseUnary (unaryNat n ++ rest) = some (n, rest) := by
  induction n with
  | zero => rfl
  | succ k ih => simp only [unaryNat, List.replicate_succ, List.cons_append] at ih ⊢
                 simp only [parseUnary, ih]

theorem takeExact_append (xs rest : List Char) :
    takeExact xs.length (xs ++ rest) = some (xs, rest) := by
  induction xs with
  | nil => rfl
  | cons c t ih => simp only [List.length_cons, List.cons_append, takeExact, List.append_eq, ih]

theorem parseIntChars_serInt (n : Int) (rest : List Char) :
    parseIntChars (serInt n ++ rest) = some (n, rest) := by
  by_cases h : n < 0
  · simp only [serInt, if_pos h, List.cons_append, parseIntChars, parseUnary_unaryNat]
    congr 2
    omega
  · simp only [serInt, if_neg h, List.cons_append, parseIntChars, parseUnary_unaryNat]
    congr 2
    omega

theorem parseBytes_flatMap (bs : List PyByte) (rest : List Char) :
    parseBytes bs.length (bs.flatMap serByte ++ rest) = some (bs, rest) := by
  induction bs with
  | nil => rfl
  | cons b t ih =>
    simp only [List.flatMap_cons, List.length_cons, List.append_assoc]
    simp only [parseBytes, serByte, parseUnary_unaryNat, b.isLt, dif_pos, ih]

mutual

theorem parseObj_serObj (v : PyObj) (rest : List Char) (fuel : Nat)
    (h : (serObj v).length ≤ fuel) :
    parseObj fuel (serObj v ++ rest) = some (v, rest) := by
  cases v with
  | pystr s =>
    cases fuel with
    | zero => simp only [serObj, List.length_cons] at h; omega
    | succ f =>
      simp only [serObj, List.cons_append, List.append_assoc, parseObj,
        parseUnary_unaryNat, takeExact_append]
  | pyint n =>
    cases fuel with
    | zero => simp only [serObj, List.length_cons] at h; omega
    | succ f =>
      simp only [serObj, List.cons_append, parseObj, parseIntChars_serInt]
  | pybytes bs =>
    cases fuel with
    | zero => simp only [serObj, List.length_cons] at h; omega
    | succ f =>
      simp only [serObj, List.cons_append, List.append_assoc, parseObj,
        parseUnary_unaryNat, parseBytes_flatMap]
  | pylist l =>
    cases fuel with
    | zero => simp only [serObj, List.length_cons] at h; omega
    | succ f =>
      have hl : (serPyList l).length ≤ f := by
        simp only [serObj, List.length_cons] at h; omega
      simp only [serObj, List.cons_append, parseObj,
        parsePyList_serPyList l rest f hl]
  | pydict fs =>
    cases fuel with
    | zero => simp only [serObj, List.length_cons] at h; omega
    | succ f =>
      have hl : (serPyFields fs).length ≤ f := by
        simp only [serObj, List.length_cons] at h; omega
      simp only [serObj, List.cons_append, parseObj,
        parsePyFields_serPyFields fs rest f hl]

theorem parsePyList_serPyList (l : PyList) (rest : List Char) (fuel : Nat)
    (h : (serPyList l).length ≤ fuel) :
    parsePyList fuel (serPyList l ++ rest) = some (l, rest) := by
  cases l with
  | lnil =>
    cases fuel with
    | zero => simp only [serPyList, List.length_cons] at h; omega
    | succ f =>
      simp only [serPyList, List.cons_append, List.nil_append, parsePyList]
  | lcons v t =>
    cases fuel with
    | zero => simp only [serPyList, List.length_cons] at h; omega
    | succ f =>
      have hv : (serObj v).length ≤ f := by
        simp only [serPyList, List.length_cons, List.length_append] at h; omega
      have ht : (serPyList t).length ≤ f := by
        simp only [serPyList, List.length_cons, List.length_append] at h; omega
      simp only [serPyList, List.cons_append, List.append_assoc, parsePyList,
        parseObj_serObj v (serPyList t ++ rest) f hv,
        parsePyList_serPyList t rest f ht]

theorem parsePyFields_serPyFields (fs : PyFields) (rest : List Char) (fuel : Nat)
    (h : (serPyFields fs).length ≤ fuel) :
    parsePyFields fuel (serPyFields fs ++ rest) = some (fs, rest) := by
  cases fs with
  | fnil =>
    cases fuel with
    | zero => simp only [serPyFields, List.length_cons] at h; omega
    | succ f =>
      simp only [serPyFields, List.cons_append, List.nil_append, parsePyFields]
  | fcons k v t =>
    cases fuel with
    | zero => simp only [serPyFields, List.length_cons] at h; omega
    | succ f =>
      have hv : (serObj v).length ≤ f := by
        simp only [serPyFields, List.length_cons, List.length_append] at h; omega
      have ht : (serPyFields t).length ≤ f := by
        simp only [serPyFields, List.length_cons, List.length_append] at h; omega
      simp only [serPyFields, List.cons_append, List.append_assoc, parsePyFields,
        parseUnary_unaryNat, takeExact_append,
        parseObj_serObj v (serPyFields t ++ rest) f hv,
        parsePyFields_serPyFields t rest f ht]

end

theorem baseLoads_baseDumps (v : PyObj) : baseLoads (baseDumps v) = .ok v := by
  have h := parseObj_serObj v [] ((serObj v).length + 1) (by omega)
  simp only [List.append_nil] at h
  simp only [baseLoads, baseDumps, h]

theorem serde_roundtrip_nonbytes (v : PyObj) (hv : isBytesObj v = false) :
    serde_loads (serde_dumps v) false = .ok v := by
  cases v with
  | pybytes bs => simp [isBytesObj] at hv
  | pystr s => simp only [serde_dumps, serde_loads, if_neg Bool.false_ne_true,
      baseLoads_baseDumps]
  | pyint n => simp only [serde_dumps, serde_loads, if_neg Bool.false_ne_true,
      baseLoads_baseDumps]
  | pylist l => simp only [serde_dumps, serde_loads, if_neg Bool.false_ne_true,
      baseLoads_baseDumps]
  | pydict fs => simp only [serde_dumps, serde_loads, if_neg Bool.false_ne_true,
      baseLoads_baseDumps]

/-! ## Run lemmas for the effect monad -/

theorem bind_eq_mbind (x : StoreM α) (f : α → StoreM β) :
    x >>= f = StoreM.mbind x f := rfl

theorem pure_eq_mpure (a : α) : (pure a : StoreM α) = StoreM.mpure a := rfl

theorem mbind_run (x : StoreM α) (f : α → StoreM β) (st : RedisStore) :
    StoreM.mbind x f st =
      match x st with
      | (.ok a, st2, tr) =>
        match f a st2 with
        | (r, st3, tr2) => (r, st3, tr ++ tr2)
      | (.error e, st2, tr) => (.error e, st2, tr) := rfl

theorem lookupRH_setField_same (h : RHash) (name v : String) :
    lookupRH (setField h name v) name = some v := by
  induction h with
  | nil => simp [setField, lookupRH]
  | cons p t ih =>
    by_cases hn : p.1 = name
    · cases p
      simp_all [setField, lookupRH]
    · cases p
      simp_all [setField, lookupRH]

theorem lookupRH_setField_other (h : RHash) (name v n : String) (hn : n ≠ name) :
    lookupRH (setField h name v) n = lookupRH h n := by
  induction h with
  | nil => simp [setField, lookupRH, Ne.symm hn]
  | cons p t ih =>
    cases p with
    | mk pn pv =>
      by_cases hp : pn = name
      · subst hp
        have hx : ¬ pn = n := fun hh => hn hh.symm
        simp [setField, lookupRH, hx]
      · simp only [setField, if_neg hp, lookupRH]
        by_cases hq : pn = n
        · simp [hq]
        · simp [hq, ih]

theorem setField_ne_nil (h : RHash) (name v : String) :
    setField h name v ≠ [] := by
  cases h with
  | nil => simp [setField]
  | cons p t =>
    cases p
    simp only [setField]
    split <;> simp

theorem hsetFields_putMapping (h : RHash) (cs ms ps : String) :
    hsetFields h (putMapping cs ms ps)
      = setField (setField (setField h "checkpoint" cs) "metadata" ms) "parent_ts" ps := rfl

theorem lookupRH_putMapping_checkpoint (h : RHash) (cs ms ps : String) :
    lookupRH (hsetFields h (putMapping cs ms ps)) "checkpoint" = some cs := by
  rw [hsetFields_putMapping]
  rw [lookupRH_setField_other _ _ _ _ (by decide)]
  rw [lookupRH_setField_other _ _ _ _ (by decide)]
  exact lookupRH_setField_same _ _ _

theorem lookupRH_putMapping_metadata (h : RHash) (cs ms ps : String) :
    lookupRH (hsetFields h (putMapping cs ms ps)) "metadata" = some ms := by
  rw [hsetFields_putMapping]
  rw [lookupRH_setField_other _ _ _ _ (by decide)]
  exact lookupRH_setField_same _ _ _

theorem lookupRH_putMapping_parent (h : RHash) (cs ms ps : String) :
    lookupRH (hsetFields h (putMapping cs ms ps)) "parent_ts" = some ps := by
  rw [hsetFields_putMapping]
  exact lookupRH_setField_same _ _ _

theorem hsetFields_putMapping_ne_nil (h : RHash) (cs ms ps : String) :
    hsetFields h (putMapping cs ms ps) ≠ [] := by
  rw [hsetFields_putMapping]
  exact setField_ne_nil _ _ _

theorem storeHgetall_hset_same (st : RedisStore) (key : String)
    (fields : List (String × String)) :
    storeHgetall (storeHset st key fields) key = hsetFields (storeHgetall st key) fields := by
  induction st with
  | nil => simp [storeHset, storeHgetall]
  | cons p t ih =>
    cases p with
    | mk k h =>
      by_cases hk : k = key
      · subst hk
        simp [storeHset, storeHgetall]
      · simp [storeHset, storeHgetall, hk, ih]

theorem storeHgetall_hset_other (st : RedisStore) (key k : String)
    (fields : List (String × String)) (hk : k ≠ key) :
    storeHgetall (storeHset st key fields) k = storeHgetall st k := by
  induction st with
  | nil =>
    have hx : ¬ key = k := fun hh => hk hh.symm
    simp [storeHset, storeHgetall, hx]
  | cons p t ih =>
    cases p with
    | mk k2 h =>
      by_cases h2 : k2 = key
      · subst h2
        have hx : ¬ k2 = k := fun hh => hk hh.symm
        simp [storeHset, storeHgetall, hx]
      · simp only [storeHset, if_neg h2, storeHgetall]
        by_cases h3 : k2 = k
        · simp [h3]
        · simp [h3, ih]

theorem dictGet_clientHgetall_pbytes (st : RedisStore) (key name : String) :
    dictGet (clientHgetall st key) (.pbytes name) = lookupRH (storeHgetall st key) name := by
  simp only [clientHgetall]
  induction storeHgetall st key with
  | nil => rfl
  | cons p t ih =>
    cases p with
    | mk n w =>
      simp only [List.map_cons, dictGet, lookupRH, PyKey.pbytes.injEq]
      by_cases h : n = name <;> simp [h, ih]

theorem dictGet_map_pbytes_pstr (h : RHash) (name : String) :
    dictGet (h.map (fun p => (.pbytes p.1, p.2))) (.pstr name) = none := by
  induction h with
  | nil => rfl
  | cons p t ih =>
    cases p
    simp [dictGet, ih]

theorem clientHgetall_isEmpty (st : RedisStore) (key : String) :
    (clientHgetall st key).isEmpty = (storeHgetall st key).isEmpty := by
  simp only [clientHgetall]
  cases storeHgetall st key <;> simp

theorem storeHset_fresh (st : RedisStore) (key : String)
    (fields : List (String × String)) (h : key ∉ st.map (fun e => e.1)) :
    storeHset st key fields = st ++ [(key, hsetFields [] fields)] := by
  induction st with
  | nil => simp [storeHset]
  | cons p t ih =>
    cases p with
    | mk k hh =>
      simp only [List.map_cons, List.mem_cons] at h
      push_neg at h
      simp only [storeHset, if_neg (fun hk : k = key => h.1 (hk ▸ rfl)), List.cons_append]
      rw [ih h.2]

theorem storeKeys_append (st1 st2 : RedisStore) (p : String) :
    storeKeys (st1 ++ st2) p = storeKeys st1 p ++ storeKeys st2 p := by
  simp [storeKeys]

/-! ## Glob and segment lemmas -/

theorem globMatchF_star_any (s : List Char) :
    ∀ f : Nat, s.length + 2 ≤ f → globMatchF f ['*'] s = true := by
  induction s with
  | nil =>
    intro f hf
    match f, hf with
    | f' + 2, _ => simp [globMatchF]
  | cons c t ih =>
    intro f hf
    cases f with
    | zero => simp at hf
    | succ f' =>
      have h2 : t.length + 2 ≤ f' := by
        simp only [List.length_cons] at hf
        omega
      simp [globMatchF, ih f' h2]

theorem globMatchF_append_star (p : List Char) :
    ∀ (s : List Char) (f : Nat), '*' ∉ p → p.length + s.length + 2 ≤ f →
      globMatchF f (p ++ ['*']) (p ++ s) = true := by
  induction p with
  | nil =>
    intro s f _ hf
    simpa using globMatchF_star_any s f (by simpa using hf)
  | cons c t ih =>
    intro s f hp hf
    simp only [List.mem_cons] at hp
    push_neg at hp
    cases f with
    | zero => simp at hf
    | succ f' =>
      have hne : ¬ c = '*' := fun h => hp.1 h.symm
      have hf2 : t.length + s.length + 2 ≤ f' := by
        simp only [List.length_cons] at hf
        omega
      simp [globMatchF, hne, ih s f' hp.2 hf2]

theorem globMatch_append_star (p s : List Char) (hp : '*' ∉ p) :
    globMatch (p ++ ['*']) (p ++ s) = true := by
  apply globMatchF_append_star p s _ hp
  simp only [List.length_append, List.length_cons, List.length_nil]
  omega

theorem charListLt_iff (as : List Char) :
    ∀ bs, charListLt as bs = true ↔ List.Lex (· < ·) as bs := by
  induction as with
  | nil =>
    intro bs
    cases bs with
    | nil =>
      constructor
      · intro h
        exact absurd h (by simp [charListLt])
      · intro h
        cases h
    | cons b bs =>
      constructor
      · intro _
        exact List.Lex.nil
      · intro _
        rfl
  | cons a as ih =>
    intro bs
    cases bs with
    | nil =>
      constructor
      · intro h
        exact absurd h (by simp [charListLt])
      · intro h
        cases h
    | cons b bs =>
      simp only [charListLt]
      by_cases hab : a < b
      · rw [if_pos hab]
        constructor
        · intro _
          exact List.Lex.rel hab
        · intro _
          rfl
      · rw [if_neg hab]
        by_cases heq : a = b
        · subst heq
          rw [if_pos rfl, ih bs]
          constructor
          · exact List.Lex.cons
          · intro h
            cases h with
            | cons h2 => exact h2
            | rel h2 => exact absurd h2 hab
        · rw [if_neg heq]
          constructor
          · intro h
            exact absurd h (by simp)
          · intro h
            cases h with
            | cons h2 => exact absurd rfl heq
            | rel h2 => exact absurd h2 hab

/-- `strLt` agrees with the lexicographic order on strings. -/
theorem strLt_iff (a b : String) : strLt a b = true ↔ a < b := by
  rw [String.lt_iff_toList_lt]
  exact charListLt_iff a.data b.data

/-- The foldl underlying `lastSegment`. -/
theorem lastSeg_foldl_no_colon (v : List Char) (acc : List Char) (hv : ':' ∉ v) :
    v.foldl (fun acc c => if c = ':' then [] else acc ++ [c]) acc = acc ++ v := by
  induction v generalizing acc with
  | nil => simp
  | cons c t ih =>
    simp only [List.mem_cons] at hv
    push_neg at hv
    have hne : ¬ c = ':' := fun h => hv.1 h.symm
    simp only [List.foldl_cons, if_neg hne, ih _ hv.2, List.append_assoc,
      List.singleton_append]

theorem lastSegment_append_colon (a : List Char) (v : List Char) (hv : ':' ∉ v) :
    lastSegment ⟨a ++ ':' :: v⟩ = ⟨v⟩ := by
  have h := lastSeg_foldl_no_colon v [] hv
  simp only [List.nil_append] at h
  simp [lastSegment, List.foldl_append, h]

theorem checkpointKey_data (tid ts : String) :
    (checkpointKey tid ts).data = ("checkpoint:".data ++ tid.data) ++ ':' :: ts.data := by
  simp only [checkpointKey, String.data_append]
  simp

theorem lastSegment_checkpointKey (tid ts : String) (h : ':' ∉ ts.data) :
    lastSegment (checkpointKey tid ts) = ts := by
  have hd : (checkpointKey tid ts) = ⟨("checkpoint:".data ++ tid.data) ++ ':' :: ts.data⟩ := by
    apply String.ext
    simpa using checkpointKey_data tid ts
  rw [hd, lastSegment_append_colon _ _ h]

theorem checkpointKey_inj_ts (tid a b : String) (h : checkpointKey tid a = checkpointKey tid b) :
    a = b := by
  have hd := congrArg String.data h
  rw [checkpointKey_data, checkpointKey_data] at hd
  have := List.append_cancel_left hd
  exact String.ext (List.cons.inj this).2

theorem globMatch_pattern_key (tid ts : String) (htid : '*' ∉ tid.data) :
    globMatch ("checkpoint:" ++ tid ++ ":*").data (checkpointKey tid ts).data = true := by
  have hp : ("checkpoint:" ++ tid ++ ":*").data
      = (("checkpoint:".data ++ tid.data) ++ [':']) ++ ['*'] := by
    simp only [String.data_append]
    simp
  have hk : (checkpointKey tid ts).data
      = (("checkpoint:".data ++ tid.data) ++ [':']) ++ ts.data := by
    rw [checkpointKey_data]
    simp
  rw [hp, hk]
  apply globMatch_append_star
  intro hmem
  simp only [List.mem_append, List.mem_cons] at hmem
  rcases hmem with (h1 | h2) | h3
  · revert h1
    decide
  · exact htid h2
  · simp at h3

/-! ## Generic run lemmas for the saver -/

theorem run_sync_connection_direct (body : Conn → StoreM α) (id : Nat)
    (st : RedisStore) :
    _get_sync_connection (.direct id) body st = body (.direct id) st := rfl

theorem run_mpure (a : α) (st : RedisStore) :
    StoreM.mpure a st = (.ok a, st, []) := rfl

theorem hsetFields_putMapping_nil (cs ms ps : String) :
    hsetFields [] (putMapping cs ms ps) = putMapping cs ms ps := rfl

theorem isEmpty_false_of_ne_nil {l : List α} (h : l ≠ []) : l.isEmpty = false := by
  cases l with
  | nil => exact absurd rfl h
  | cons a t => rfl

theorem ckptTs_not_bytes (c : PyObj) (ts : String) (h : ckptTs c = some ts) :
    isBytesObj c = false := by
  cases c <;> simp_all [ckptTs, isBytesObj]

/-- How one `put` runs over a direct connection: the result identity, the
store update, and the single-`HSET` trace. -/
theorem put_run (st : RedisStore) (cfg : Config) (c m : PyObj) (ts : String)
    (hc : ckptTs c = some ts) :
    RedisSaver.put (.direct 0) cfg c m st
      = (.ok ⟨cfg.thread_id, some ts⟩,
         storeHset st (checkpointKey cfg.thread_id ts)
           (putMapping (serde_dumps c) (serde_dumps m)
             (if tsTruthy cfg.thread_ts then cfg.thread_ts.getD "" else "")),
         [.cmd (.chset (checkpointKey cfg.thread_id ts)
           (putMapping (serde_dumps c) (serde_dumps m)
             (if tsTruthy cfg.thread_ts then cfg.thread_ts.getD "" else "")))]) := by
  simp only [RedisSaver.put, hc, run_sync_connection_direct, bind_eq_mbind,
    mbind_run, cmdHset, run_mpure, putMapping, List.append_nil]

/-! ## Claim theorems -/

/-- C6: for every byte sequence `b`, the codec's `dumps(b)` produces text
consisting only of lowercase hexadecimal characters with no prefix, and
`loads(dumps(b), is_binary=true)` returns exactly the original bytes. -/
theorem C6_binary_hex_roundtrip (bs : List PyByte) :
    ((serde_dumps (.pybytes bs)).data.all isLowerHexDigit = true)
    ∧ serde_loads (serde_dumps (.pybytes bs)) true = .ok (.pybytes bs) := by
  constructor
  · exact bytesHex_all_lower_hex bs
  · show serde_loads (bytesHex bs) true = .ok (.pybytes bs)
    simp [serde_loads, bytesFromHex_bytesHex bs]

/-- C7: for every body run through the scoped connection provider (the sync
and async providers are textually identical apart from `await`): a directly
supplied connection is used in place with nothing added to the trace — in
particular it is never closed — while a pooled source leases a connection
that is closed on scope exit, whatever result (value or exception) the body
produced. -/
theorem C7_connection_scoping {α : Type} (body : Conn → StoreM α)
    (st : RedisStore) (id pid : Nat) :
    _get_sync_connection (.direct id) body st = body (.direct id) st
    ∧ (_get_sync_connection (.pool pid) body st).2.2
        = .connOpened (.leased pid) :: (body (.leased pid) st).2.2
            ++ [.connClosed (.leased pid)]
    ∧ (_get_sync_connection (.pool pid) body st).1 = (body (.leased pid) st).1 := by
  refine ⟨rfl, ?_, ?_⟩
  · rcases hb : body (.leased pid) st with ⟨r, st2, tr⟩
    simp [_get_sync_connection, hb]
  · rcases hb : body (.leased pid) st with ⟨r, st2, tr⟩
    simp [_get_sync_connection, hb]

/-- C8: a connection source that is neither an accepted connection nor an
accepted pool (e.g. `None`) makes `put`, `get_tuple` and `list` raise
`ValueError` immediately: the store is unchanged and no command is issued. -/
theorem C8_invalid_source_raises (cfg : Config) (c m : PyObj) (ts : String)
    (hc : ckptTs c = some ts) (st : RedisStore)
    (filt : Option (List (String × String))) (before : Option Config)
    (limit : Option Nat) :
    RedisSaver.put .invalid cfg c m st
        = (.error "ValueError: Invalid sync connection object.", st, [])
    ∧ RedisSaver.get_tuple .invalid cfg st
        = (.error "ValueError: Invalid sync connection object.", st, [])
    ∧ RedisSaver.list .invalid (some cfg) filt before limit st
        = (.error "ValueError: Invalid sync connection object.", st, []) := by
  refine ⟨?_, rfl, rfl⟩
  simp only [RedisSaver.put, hc]
  rfl

/-- C8 witness. -/
theorem C8_invalid_source_raises_witness :
    RedisSaver.put .invalid ⟨"t", none⟩ (.pydict (.fcons "ts" (.pystr "V1") .fnil))
        (.pystr "m") []
        = (.error "ValueError: Invalid sync connection object.", [], [])
    ∧ RedisSaver.get_tuple .invalid ⟨"t", none⟩ []
        = (.error "ValueError: Invalid sync connection object.", [], [])
    ∧ RedisSaver.list .invalid (some ⟨"t", none⟩) none none none []
        = (.error "ValueError: Invalid sync connection object.", [], []) :=
  C8_invalid_source_raises ⟨"t", none⟩ (.pydict (.fcons "ts" (.pystr "V1") .fnil))
    (.pystr "m") "V1" rfl [] none none none

/-- C9: `put` (and `aput`, identical apart from `await`) issues exactly one
field-group write — a single `HSET` under `checkpoint:{thread_id}:{ts}` —
appending one fresh record to the store and leaving every previously
existing record untouched (the old store is an unchanged prefix); the same
holds over a pooled connection, whose trace adds only the lease and the
close, no further command. -/
theorem C9_put_single_fresh_record (st : RedisStore) (cfg : Config)
    (c m : PyObj) (ts : String) (pid : Nat) (hc : ckptTs c = some ts)
    (hfresh : checkpointKey cfg.thread_id ts ∉ st.map (fun e => e.1)) :
    RedisSaver.put (.direct 0) cfg c m st
      = (.ok ⟨cfg.thread_id, some ts⟩,
         st ++ [(checkpointKey cfg.thread_id ts,
           putMapping (serde_dumps c) (serde_dumps m)
             (if tsTruthy cfg.thread_ts then cfg.thread_ts.getD "" else ""))],
         [.cmd (.chset (checkpointKey cfg.thread_id ts)
           (putMapping (serde_dumps c) (serde_dumps m)
             (if tsTruthy cfg.thread_ts then cfg.thread_ts.getD "" else "")))])
    ∧ RedisSaver.put (.pool pid) cfg c m st
      = (.ok ⟨cfg.thread_id, some ts⟩,
         st ++ [(checkpointKey cfg.thread_id ts,
           putMapping (serde_dumps c) (serde_dumps m)
             (if tsTruthy cfg.thread_ts then cfg.thread_ts.getD "" else ""))],
         [.connOpened (.leased pid),
          .cmd (.chset (checkpointKey cfg.thread_id ts)
           (putMapping (serde_dumps c) (serde_dumps m)
             (if tsTruthy cfg.thread_ts then cfg.thread_ts.getD "" else ""))),
          .connClosed (.leased pid)]) := by
  constructor
  · rw [put_run st cfg c m ts hc, storeHset_fresh st _ _ hfresh, hsetFields_putMapping_nil]
  · simp only [RedisSaver.put, hc, _get_sync_connection, bind_eq_mbind, mbind_run,
      cmdHset, StoreM.mpure, putMapping, List.append_nil, List.cons_append,
      List.nil_append]
    rw [storeHset_fresh st _ _ hfresh]
    rfl

/-- C9 witness. -/
theorem C9_put_single_fresh_record_witness :
    RedisSaver.put (.direct 0) ⟨"t", none⟩
        (.pydict (.fcons "ts" (.pystr "V1") .fnil)) (.pystr "m")
        [("other", [("checkpoint", "x")])]
      = (.ok ⟨"t", some "V1"⟩,
         [("other", [("checkpoint", "x")])]
           ++ [(checkpointKey "t" "V1",
                putMapping (serde_dumps (.pydict (.fcons "ts" (.pystr "V1") .fnil)))
                  (serde_dumps (.pystr "m"))
                  (if tsTruthy (Config.mk "t" none).thread_ts
                   then (Config.mk "t" none).thread_ts.getD "" else ""))],
         [.cmd (.chset (checkpointKey "t" "V1")
           (putMapping (serde_dumps (.pydict (.fcons "ts" (.pystr "V1") .fnil)))
             (serde_dumps (.pystr "m"))
             (if tsTruthy (Config.mk "t" none).thread_ts
              then (Config.mk "t" none).thread_ts.getD "" else "")))])
    ∧ RedisSaver.put (.pool 7) ⟨"t", none⟩
        (.pydict (.fcons "ts" (.pystr "V1") .fnil)) (.pystr "m")
        [("other", [("checkpoint", "x")])]
      = (.ok ⟨"t", some "V1"⟩,
         [("other", [("checkpoint", "x")])]
           ++ [(checkpointKey "t" "V1",
                putMapping (serde_dumps (.pydict (.fcons "ts" (.pystr "V1") .fnil)))
                  (serde_dumps (.pystr "m"))
                  (if tsTruthy (Config.mk "t" none).thread_ts
                   then (Config.mk "t" none).thread_ts.getD "" else ""))],
         [.connOpened (.leased 7),
          .cmd (.chset (checkpointKey "t" "V1")
           (putMapping (serde_dumps (.pydict (.fcons "ts" (.pystr "V1") .fnil)))
             (serde_dumps (.pystr "m"))
             (if tsTruthy (Config.mk "t" none).thread_ts
              then (Config.mk "t" none).thread_ts.getD "" else ""))),
          .connClosed (.leased 7)]) :=
  C9_put_single_fresh_record [("other", [("checkpoint", "x")])] ⟨"t", none⟩
    (.pydict (.fcons "ts" (.pystr "V1") .fnil)) (.pystr "m") "V1" 7 rfl (by decide)

/-- C10: the `filter` parameter of `list` (and `alist`) has no effect:
with everything else equal, any filter value produces the same run as
`filter=None` on every store. -/
theorem C10_filter_has_no_effect (source : SyncConnSource) (config : Option Config)
    (filt : Option (List (String × String))) (before : Option Config)
    (limit : Option Nat) :
    RedisSaver.list source config filt before limit
      = RedisSaver.list source config none before limit := rfl

/-- C2 (against the claim): with five fully written records in thread `t`
— complete enough that `get_tuple` decodes them — `list(thread, limit=3)`
yields no tuples at all, because the completeness test `"checkpoint" in
data` uses `str` keys while the reply dict is keyed by `bytes`
(`get_tuple` reads the same reply under `b"checkpoint"`). -/
theorem C2_list_yields_nothing :
    (RedisSaver.list (.direct 0) (some ⟨"t", none⟩) none none (some 3) fiveStore).1
        = .ok []
    ∧ storeKeys fiveStore "checkpoint:t:*"
        = ["checkpoint:t:1", "checkpoint:t:2", "checkpoint:t:3",
           "checkpoint:t:4", "checkpoint:t:5"]
    ∧ (RedisSaver.get_tuple (.direct 0) ⟨"t", some "5"⟩ fiveStore).1
        = .ok (some ⟨⟨"t", some "5"⟩, cexCkpt "5", cexMeta "m5", some ⟨"t", some "4"⟩⟩)
    ∧ dictHasKey (clientHgetall fiveStore "checkpoint:t:5") (.pbytes "checkpoint") = true
    ∧ dictHasKey (clientHgetall fiveStore "checkpoint:t:5") (.pstr "checkpoint") = false := by
  exact ⟨rfl, rfl, rfl, rfl, rfl⟩

/-- C3 (against the claim): in thread `t` with fully written records at
versions `"1" < "2" < "3"`, `list(thread, before={version:"3"})` yields no
tuples, although the records with strictly smaller versions `"1"` and `"2"`
exist and are readable; the same `str`-vs-`bytes` key mismatch skips them. -/
theorem C3_before_filter_yields_nothing :
    (RedisSaver.list (.direct 0) (some ⟨"t", none⟩) none (some ⟨"t", some "3"⟩)
        none fiveStore).1 = .ok []
    ∧ (RedisSaver.get_tuple (.direct 0) ⟨"t", some "1"⟩ fiveStore).1
        = .ok (some ⟨⟨"t", some "1"⟩, cexCkpt "1", cexMeta "m1", none⟩)
    ∧ (RedisSaver.get_tuple (.direct 0) ⟨"t", some "2"⟩ fiveStore).1
        = .ok (some ⟨⟨"t", some "2"⟩, cexCkpt "2", cexMeta "m2", some ⟨"t", some "1"⟩⟩)
    ∧ (("1" : String) < "3" ∧ ("2" : String) < "3") := by
  exact ⟨rfl, rfl, rfl, (strLt_iff _ _).mp rfl, (strLt_iff _ _).mp rfl⟩

/-- C1 counterexample: with thread `t` holding records at versions `"9:1"`
and `"2:5"`, the full version marker `"9:1"` is the lexicographic maximum,
yet `get_tuple` with an absent version returns the record written with
`"2:5"` (its payload differs from the `"9:1"` record's): the code compares
only the segment after the key's last colon, not the full version marker. -/
theorem C1_counterexample :
    storeKeys colonStore "checkpoint:t:*" = ["checkpoint:t:9:1", "checkpoint:t:2:5"]
    ∧ ("2:5" : String) < "9:1"
    ∧ (RedisSaver.get_tuple (.direct 0) ⟨"t", none⟩ colonStore).1
        = .ok (some ⟨⟨"t", none⟩, cexCkpt "2:5", cexMeta "m2:5", some ⟨"t", some "9:1"⟩⟩)
    ∧ cexCkpt "2:5" ≠ cexCkpt "9:1" := by
  exact ⟨rfl, (strLt_iff _ _).mp rfl, rfl, by decide⟩

theorem tsTruthy_some_ne (s : String) (h : s ≠ "") : tsTruthy (some s) = true := by
  simp [tsTruthy, h]

/-- C4: for every starting store, identity `id0`, checkpoints `c0`, `c1`
carrying (non-empty) version markers `t0`, `t1`, and metadata values:
`put(id0,c0,m0)` returns `id1 = {thread, t0}`, `put(id1,c1,m1)` returns
`id2 = {thread, t1}`, and `get_tuple(id2)` returns a tuple whose parent
identity is non-null with version equal to `id1`'s version `t0` — the
stored `parent_ts` names the immediately preceding checkpoint.  (Metadata
is a `CheckpointMetadata` dict, hence not a bytes object.) -/
theorem C4_monotonic_parent_chain (st0 : RedisStore) (id0 : Config)
    (c0 c1 m0 m1 : PyObj) (t0 t1 : String)
    (h0 : ckptTs c0 = some t0) (h1 : ckptTs c1 = some t1)
    (hne0 : t0 ≠ "") (hne1 : t1 ≠ "")
    (hm1 : isBytesObj m1 = false) :
    (RedisSaver.put (.direct 0) id0 c0 m0 st0).1 = .ok ⟨id0.thread_id, some t0⟩
    ∧ (RedisSaver.put (.direct 0) ⟨id0.thread_id, some t0⟩ c1 m1
        (RedisSaver.put (.direct 0) id0 c0 m0 st0).2.1).1 = .ok ⟨id0.thread_id, some t1⟩
    ∧ ∃ tup : CheckpointTuple,
        (RedisSaver.get_tuple (.direct 0) ⟨id0.thread_id, some t1⟩
          (RedisSaver.put (.direct 0) ⟨id0.thread_id, some t0⟩ c1 m1
            (RedisSaver.put (.direct 0) id0 c0 m0 st0).2.1).2.1).1
          = .ok (some tup)
        ∧ tup.parent_config = some ⟨id0.thread_id, some t0⟩ := by
  have e0 := put_run st0 id0 c0 m0 t0 h0
  have e1 := put_run (RedisSaver.put (.direct 0) id0 c0 m0 st0).2.1
    ⟨id0.thread_id, some t0⟩ c1 m1 t1 h1
  refine ⟨by rw [e0], by rw [e1], ?_⟩
  rw [e1]
  -- the store after the second put, and the record it wrote
  have hparentfield :
      (if tsTruthy (Config.mk id0.thread_id (some t0)).thread_ts
       then (Config.mk id0.thread_id (some t0)).thread_ts.getD "" else "") = t0 := by
    simp [tsTruthy_some_ne t0 hne0]
  rw [hparentfield]
  set st1 := (RedisSaver.put (.direct 0) id0 c0 m0 st0).2.1 with hst1
  set k1 := checkpointKey id0.thread_id t1 with hk1
  set f1 := putMapping (serde_dumps c1) (serde_dumps m1) t0 with hf1
  set st2 := storeHset st1 k1 f1 with hst2
  have hhash : storeHgetall st2 k1 = hsetFields (storeHgetall st1 k1) f1 :=
    storeHgetall_hset_same st1 k1 f1
  have hempty : (clientHgetall st2 k1).isEmpty = false := by
    rw [clientHgetall_isEmpty, hhash, hf1]
    exact isEmpty_false_of_ne_nil (hsetFields_putMapping_ne_nil _ _ _ _)
  have hcheck : dictGet (clientHgetall st2 k1) (.pbytes "checkpoint")
      = some (serde_dumps c1) := by
    rw [dictGet_clientHgetall_pbytes, hhash, hf1]
    exact lookupRH_putMapping_checkpoint _ _ _ _
  have hmeta : dictGet (clientHgetall st2 k1) (.pbytes "metadata")
      = some (serde_dumps m1) := by
    rw [dictGet_clientHgetall_pbytes, hhash, hf1]
    exact lookupRH_putMapping_metadata _ _ _ _
  have hparent : dictGetD (clientHgetall st2 k1) (.pbytes "parent_ts") "" = t0 := by
    rw [dictGetD, dictGet_clientHgetall_pbytes, hhash, hf1,
      lookupRH_putMapping_parent]
    rfl
  have hloadc : serde_loads (serde_dumps c1) false = .ok c1 :=
    serde_roundtrip_nonbytes c1 (ckptTs_not_bytes c1 t1 h1)
  have hloadm : serde_loads (serde_dumps m1) false = .ok m1 :=
    serde_roundtrip_nonbytes m1 hm1
  refine ⟨⟨⟨id0.thread_id, some t1⟩, c1, m1, some ⟨id0.thread_id, some t0⟩⟩, ?_, rfl⟩
  simp only [RedisSaver.get_tuple, run_sync_connection_direct, bind_eq_mbind,
    mbind_run, tsTruthy_some_ne t1 hne1, if_true, StoreM.mpure, Option.getD_some,
    cmdHgetall, hempty, Bool.false_eq_true, if_false, dictGetOrRaise, hcheck, hmeta,
    liftE, hloadc, hloadm, hparent, if_neg hne0]

/-- C4 witness. -/
theorem C4_monotonic_parent_chain_witness :
    ckptTs (cexCkpt "1") = some "1" ∧ ckptTs (cexCkpt "2") = some "2"
    ∧ ("1" : String) ≠ "" ∧ ("2" : String) ≠ ""
    ∧ isBytesObj (cexMeta "m") = false
    ∧ ((RedisSaver.put (.direct 0) ⟨"t", none⟩ (cexCkpt "1") (cexMeta "m") []).1
          = .ok ⟨"t", some "1"⟩
        ∧ (RedisSaver.put (.direct 0) ⟨"t", some "1"⟩ (cexCkpt "2") (cexMeta "m")
            (RedisSaver.put (.direct 0) ⟨"t", none⟩ (cexCkpt "1") (cexMeta "m") []).2.1).1
          = .ok ⟨"t", some "2"⟩
        ∧ ∃ tup : CheckpointTuple,
            (RedisSaver.get_tuple (.direct 0) ⟨"t", some "2"⟩
              (RedisSaver.put (.direct 0) ⟨"t", some "1"⟩ (cexCkpt "2") (cexMeta "m")
                (RedisSaver.put (.direct 0) ⟨"t", none⟩ (cexCkpt "1") (cexMeta "m") []).2.1).2.1).1
              = .ok (some tup)
            ∧ tup.parent_config = some ⟨"t", some "1"⟩) :=
  ⟨rfl, rfl, by decide, by decide, rfl,
    C4_monotonic_parent_chain [] ⟨"t", none⟩ (cexCkpt "1") (cexCkpt "2")
      (cexMeta "m") (cexMeta "m") "1" "2" rfl rfl (by decide) (by decide) rfl⟩

theorem storeHgetall_not_mem (st : RedisStore) (key : String)
    (h : key ∉ st.map (fun e => e.1)) : storeHgetall st key = [] := by
  induction st with
  | nil => rfl
  | cons p t ih =>
    cases p with
    | mk k hh =>
      simp only [List.map_cons, List.mem_cons] at h
      push_neg at h
      simp only [storeHgetall, if_neg (fun hk : k = key => h.1 (hk ▸ rfl))]
      exact ih h.2

/-- No key matching a pattern is in a store whose pattern enumeration is
empty. -/
theorem not_mem_of_storeKeys_nil (st : RedisStore) (p key : String)
    (hnil : storeKeys st p = []) (hmatch : globMatch p.data key.data = true) :
    key ∉ st.map (fun e => e.1) := by
  intro hmem
  have : key ∈ storeKeys st p := by
    simp only [storeKeys, List.mem_filter]
    exact ⟨hmem, hmatch⟩
  rw [hnil] at this
  cases this

/-- C5: a first write to a fresh thread `t` — no stored key matches the
thread's pattern — with a checkpoint carrying version marker `V1` returns
the identity `{thread: t, version: V1}`, and a subsequent
`get_tuple({thread: t})` (version absent) returns that same checkpoint and
metadata, decoded equal to what was passed in, with a null parent identity. -/
theorem C5_first_write_then_get (st0 : RedisStore) (c m : PyObj) (v1 : String)
    (hc : ckptTs c = some v1) (hm : isBytesObj m = false)
    (hfresh : storeKeys st0 "checkpoint:t:*" = []) :
    (RedisSaver.put (.direct 0) ⟨"t", none⟩ c m st0).1 = .ok ⟨"t", some v1⟩
    ∧ (RedisSaver.get_tuple (.direct 0) ⟨"t", none⟩
        (RedisSaver.put (.direct 0) ⟨"t", none⟩ c m st0).2.1).1
      = .ok (some ⟨⟨"t", none⟩, c, m, none⟩) := by
  have e0 := put_run st0 ⟨"t", none⟩ c m v1 hc
  refine ⟨by rw [e0], ?_⟩
  rw [e0]
  have hpat : ("checkpoint:" ++ "t" ++ ":*" : String) = "checkpoint:t:*" := rfl
  have hmatch : globMatch ("checkpoint:t:*").data (checkpointKey "t" v1).data = true := by
    rw [← hpat]
    exact globMatch_pattern_key "t" v1 (by decide)
  have hnotmem : checkpointKey "t" v1 ∉ st0.map (fun e => e.1) :=
    not_mem_of_storeKeys_nil st0 "checkpoint:t:*" (checkpointKey "t" v1) hfresh hmatch
  set k1 := checkpointKey "t" v1 with hk1
  set f1 := putMapping (serde_dumps c) (serde_dumps m)
    (if tsTruthy (Config.mk "t" none).thread_ts
     then (Config.mk "t" none).thread_ts.getD "" else "") with hf1
  have hf1e : f1 = putMapping (serde_dumps c) (serde_dumps m) "" := rfl
  set st1 := storeHset st0 k1 f1 with hst1
  have hkeys : storeKeys st1 ("checkpoint:" ++ "t" ++ ":*") = [k1] := by
    rw [hpat, hst1, storeHset_fresh st0 k1 f1 hnotmem, storeKeys_append, hfresh]
    simp [storeKeys, hmatch]
  have hhash : storeHgetall st1 k1 = hsetFields [] f1 := by
    rw [hst1, storeHgetall_hset_same, storeHgetall_not_mem st0 k1 hnotmem]
  have hempty : (clientHgetall st1 k1).isEmpty = false := by
    rw [clientHgetall_isEmpty, hhash, hf1e]
    exact isEmpty_false_of_ne_nil (hsetFields_putMapping_ne_nil _ _ _ _)
  have hcheck : dictGet (clientHgetall st1 k1) (.pbytes "checkpoint")
      = some (serde_dumps c) := by
    rw [dictGet_clientHgetall_pbytes, hhash, hf1e]
    exact lookupRH_putMapping_checkpoint _ _ _ _
  have hmeta : dictGet (clientHgetall st1 k1) (.pbytes "metadata")
      = some (serde_dumps m) := by
    rw [dictGet_clientHgetall_pbytes, hhash, hf1e]
    exact lookupRH_putMapping_metadata _ _ _ _
  have hparent : dictGetD (clientHgetall st1 k1) (.pbytes "parent_ts") "" = "" := by
    rw [dictGetD, dictGet_clientHgetall_pbytes, hhash, hf1e,
      lookupRH_putMapping_parent]
    rfl
  have hloadc : serde_loads (serde_dumps c) false = .ok c :=
    serde_roundtrip_nonbytes c (ckptTs_not_bytes c v1 hc)
  have hloadm : serde_loads (serde_dumps m) false = .ok m :=
    serde_roundtrip_nonbytes m hm
  simp only [RedisSaver.get_tuple, run_sync_connection_direct, bind_eq_mbind,
    mbind_run, tsTruthy, Bool.false_eq_true, if_false, cmdKeys, StoreM.mpure,
    hkeys, pyMaxByNe, List.foldl_nil, cmdHgetall, hempty, dictGetOrRaise, hcheck,
    hmeta, liftE, hloadc, hloadm, hparent, if_pos rfl, if_true]

/-- C5 witness. -/
theorem C5_first_write_then_get_witness :
    ckptTs (cexCkpt "V1") = some "V1" ∧ isBytesObj (cexMeta "m") = false
    ∧ storeKeys [] "checkpoint:t:*" = []
    ∧ ((RedisSaver.put (.direct 0) ⟨"t", none⟩ (cexCkpt "V1") (cexMeta "m") []).1
          = .ok ⟨"t", some "V1"⟩
        ∧ (RedisSaver.get_tuple (.direct 0) ⟨"t", none⟩
            (RedisSaver.put (.direct 0) ⟨"t", none⟩ (cexCkpt "V1") (cexMeta "m") []).2.1).1
          = .ok (some ⟨⟨"t", none⟩, cexCkpt "V1", cexMeta "m", none⟩)) :=
  ⟨rfl, rfl, rfl,
    C5_first_write_then_get [] (cexCkpt "V1") (cexMeta "m") "V1" rfl rfl rfl⟩

theorem hsetFields_putMapping_isEmpty (h : RHash) (cs ms ps : String) :
    (hsetFields h (putMapping cs ms ps)).isEmpty = false :=
  isEmpty_false_of_ne_nil (hsetFields_putMapping_ne_nil h cs ms ps)

theorem proj_store (a : Except String Config) (b : RedisStore) (c : List Event) :
    ((a, b, c) : Except String Config × RedisStore × List Event).2.1 = b := rfl

/-- C1 (amended): restricted to colon-free version markers — the code picks
the maximum of `key.split(":")[-1]`, the segment after the key's last colon,
which equals the full version marker exactly when the marker contains no
colon — after three puts to the same (glob-safe) thread with strictly
increasing markers `t1 < t2 < t3`, `get_tuple` with an absent version
returns the record written with `t3`: its checkpoint and metadata decode to
the third put's arguments and its parent names `t2`. -/
theorem C1_latest_resolution_colon_free (tid : String) (c1 c2 c3 m1 m2 m3 : PyObj)
    (t1 t2 t3 : String)
    (h1 : ckptTs c1 = some t1) (h2 : ckptTs c2 = some t2) (h3 : ckptTs c3 = some t3)
    (hs1 : ':' ∉ t1.data) (hs2 : ':' ∉ t2.data) (hs3 : ':' ∉ t3.data)
    (htid : '*' ∉ tid.data)
    (h12 : t1 < t2) (h23 : t2 < t3)
    (hm3 : isBytesObj m3 = false) :
    ∃ tup : CheckpointTuple,
      (RedisSaver.get_tuple (.direct 0) ⟨tid, none⟩
        (RedisSaver.put (.direct 0) ⟨tid, some t2⟩ c3 m3
          (RedisSaver.put (.direct 0) ⟨tid, some t1⟩ c2 m2
            (RedisSaver.put (.direct 0) ⟨tid, none⟩ c1 m1 []).2.1).2.1).2.1).1
        = .ok (some tup)
      ∧ tup.checkpoint = c3 ∧ tup.metadata = m3
      ∧ tup.parent_config = some ⟨tid, some t2⟩ := by
  have hne2 : t2 ≠ "" := by
    intro h
    rw [h] at h12
    exact absurd h12 (not_lt.mpr (String.le_iff_toList_le.mpr List.nil_le))
  have hk12 : ¬ (checkpointKey tid t1 = checkpointKey tid t2) :=
    fun h => (ne_of_lt h12) (checkpointKey_inj_ts tid t1 t2 h)
  have hk13 : ¬ (checkpointKey tid t1 = checkpointKey tid t3) :=
    fun h => (ne_of_lt (lt_trans h12 h23)) (checkpointKey_inj_ts tid t1 t3 h)
  have hk23 : ¬ (checkpointKey tid t2 = checkpointKey tid t3) :=
    fun h => (ne_of_lt h23) (checkpointKey_inj_ts tid t2 t3 h)
  have hscons : ∀ (k : String) (h : RHash) (t : RedisStore) (key : String)
      (fields : List (String × String)), ¬ (k = key) →
      storeHset ((k, h) :: t) key fields = (k, h) :: storeHset t key fields := by
    intro k h t key fields hne
    simp [storeHset, hne]
  have hsnil : ∀ (key : String) (fields : List (String × String)),
      storeHset [] key fields = [(key, hsetFields [] fields)] := fun _ _ => rfl
  have hloadc : serde_loads (serde_dumps c3) false = .ok c3 :=
    serde_roundtrip_nonbytes c3 (ckptTs_not_bytes c3 t3 h3)
  have hloadm : serde_loads (serde_dumps m3) false = .ok m3 :=
    serde_roundtrip_nonbytes m3 hm3
  refine ⟨⟨⟨tid, none⟩, c3, m3, some ⟨tid, some t2⟩⟩, ?_, rfl, rfl, rfl⟩
  rw [put_run _ _ _ _ _ h1, put_run _ _ _ _ _ h2, put_run _ _ _ _ _ h3]
  simp only [proj_store]
  simp only [hsnil, hscons _ _ _ _ _ hk12, hscons _ _ _ _ _ hk13,
    hscons _ _ _ _ _ hk23]
  simp only [RedisSaver.get_tuple, run_sync_connection_direct, bind_eq_mbind,
    mbind_run, tsTruthy, Bool.false_eq_true, if_false, cmdKeys, StoreM.mpure,
    storeKeys, List.map_cons, List.map_nil, List.filter,
    globMatch_pattern_key tid t1 htid, globMatch_pattern_key tid t2 htid,
    globMatch_pattern_key tid t3 htid,
    pyMaxByNe, List.foldl_cons, List.foldl_nil,
    lastSegment_checkpointKey tid t1 hs1, lastSegment_checkpointKey tid t2 hs2,
    lastSegment_checkpointKey tid t3 hs3,
    (strLt_iff t1 t2).mpr h12, (strLt_iff t2 t3).mpr h23, if_true,
    cmdHgetall, clientHgetall_isEmpty, storeHgetall, hk13, hk23,
    hsetFields_putMapping_isEmpty, dictGetOrRaise, dictGet_clientHgetall_pbytes,
    lookupRH_putMapping_checkpoint, lookupRH_putMapping_metadata, liftE,
    hloadc, hloadm, dictGetD, lookupRH_putMapping_parent, Option.getD_some,
    tsTruthy_some_ne t2 hne2, if_neg hne2]
  simp [hne2]

/-- C1 (amended) witness. -/
theorem C1_latest_resolution_colon_free_witness :
    ckptTs (cexCkpt "1") = some "1" ∧ ckptTs (cexCkpt "2") = some "2"
    ∧ ckptTs (cexCkpt "3") = some "3"
    ∧ ':' ∉ ("1" : String).data ∧ ':' ∉ ("2" : String).data ∧ ':' ∉ ("3" : String).data
    ∧ '*' ∉ ("t" : String).data
    ∧ ("1" : String) < "2" ∧ ("2" : String) < "3"
    ∧ isBytesObj (cexMeta "m") = false
    ∧ ∃ tup : CheckpointTuple,
        (RedisSaver.get_tuple (.direct 0) ⟨"t", none⟩
          (RedisSaver.put (.direct 0) ⟨"t", some "2"⟩ (cexCkpt "3") (cexMeta "m")
            (RedisSaver.put (.direct 0) ⟨"t", some "1"⟩ (cexCkpt "2") (cexMeta "m")
              (RedisSaver.put (.direct 0) ⟨"t", none⟩ (cexCkpt "1") (cexMeta "m")
                []).2.1).2.1).2.1).1
          = .ok (some tup)
        ∧ tup.checkpoint = cexCkpt "3" ∧ tup.metadata = cexMeta "m"
        ∧ tup.parent_config = some ⟨"t", some "2"⟩ :=
  ⟨rfl, rfl, rfl, by decide, by decide, by decide, by decide,
    (strLt_iff _ _).mp rfl, (strLt_iff _ _).mp rfl, rfl,
    C1_latest_resolution_colon_free "t" (cexCkpt "1") (cexCkpt "2") (cexCkpt "3")
      (cexMeta "m") (cexMeta "m") (cexMeta "m") "1" "2" "3" rfl rfl rfl
      (by decide) (by decide) (by decide) (by decide)
      ((strLt_iff _ _).mp rfl) ((strLt_iff _ _).mp rfl) rfl⟩

end CkptRedis

